import Mathlib

/-!
Shallow embedding of the `tbf` crate (tag-based filesystem), used to check the
natural-language specification against the code.

Conventions of the embedding:
* Rust `u64`/`u32` values are `Nat` with explicit `% 2 ^ 64` / `% 2 ^ 32` at the
  points where the source performs wrapping arithmetic or `as` casts.
* Rust `String`s inside tags are modelled as their UTF-8 byte sequences
  (`List Nat`); `String::from_utf8` is modelled by an executable UTF-8 validator.
* File-system paths / file names are modelled as `List Char`; the backing
  directory of the durable backend is an association list from file name to byte
  contents, listed in directory order.
* Fallible operations return `RustResult`, with a `panicked` constructor for
  Rust panics (index out of bounds); operations that cannot panic simply never
  produce it.
-/

namespace Tbf

/-- Byte little-endian rendering of `(n as u32).to_le_bytes()`: four bytes, least
significant first.  The `usize → u32` `as`-cast truncation is captured because
byte `i` of `n % 2 ^ 32` equals `n / 256 ^ i % 256` for `i < 4`. -/
def le32 (n : Nat) : List Nat :=
  [n % 256, n / 256 % 256, n / 65536 % 256, n / 16777216 % 256]

/-- Byte little-endian rendering of `u64::to_le_bytes`. -/
def le64 (n : Nat) : List Nat :=
  [n % 256, n / 256 % 256, n / 65536 % 256, n / 16777216 % 256,
   n / 4294967296 % 256, n / 1099511627776 % 256,
   n / 281474976710656 % 256, n / 72057594037927936 % 256]

/-- Little-endian decoding of a byte list, as in `u64::from_le_bytes` /
`u32::from_le_bytes` applied to the listed bytes. -/
def leDecode : List Nat → Nat
  | [] => 0
  | b :: rest => b + 256 * leDecode rest

/-- The group of a tag (`Group` in `lib.rs`): the default group or a custom,
named group.  The name is the UTF-8 byte sequence of the Rust `String`. -/
inductive Group where
  | default
  | custom (name : List Nat)
deriving DecidableEq, Repr

/-- A file tag (`Tag` in `lib.rs`): a group together with a name. -/
structure Tag where
  group : Group
  name : List Nat
deriving DecidableEq, Repr

/-- Combined info about a file (`FileInfo` in `lib.rs`).  The `BTreeSet<Tag>` is
modelled as a duplicate-free list (first occurrence kept); no claim depends on
the iteration order of the set. -/
structure FileInfo where
  id : Nat
  tags : List Tag
  data : List Nat
deriving DecidableEq, Repr

/-- Insertion into the modelled `BTreeSet<Tag>`: a duplicate is dropped, as
`BTreeSet::insert` keeps the set semantics. -/
def setInsert (t : Tag) (s : List Tag) : List Tag :=
  if t ∈ s then s else s ++ [t]

/-- Collecting an iterator of tags into a `BTreeSet<Tag>` (`collect()`):
duplicates collapse, first occurrences survive. -/
def collectSet (l : List Tag) : List Tag :=
  l.foldl (fun s t => setInsert t s) []

/-- The three-way outcome of a Rust call in the model: `Ok`, `Err`, or a panic
(used for slice-index-out-of-bounds panics in the in-memory backend). -/
inductive RustResult (ε α : Type) where
  | ok (val : α)
  | err (e : ε)
  | panicked
deriving DecidableEq, Repr

def RustResult.bind : RustResult ε α → (α → RustResult ε β) → RustResult ε β
  | .ok a, f => f a
  | .err e, _ => .err e
  | .panicked, _ => .panicked

def RustResult.map (f : α → β) : RustResult ε α → RustResult ε β
  | .ok a => .ok (f a)
  | .err e => .err e
  | .panicked => .panicked


/-! ### The predicate engine (`pattern.rs`) -/

/-- `TagPattern for Tag`: true iff the candidate tag list contains a tag equal
to the pattern tag. -/
def tagMatchTags (self : Tag) (tags : List Tag) : Bool :=
  tags.any (fun t => t == self)

/-- `TagPattern for [Tag]`: true iff every tag of the pattern slice occurs in
the candidate tag list. -/
def sliceMatchTags (self : List Tag) (tags : List Tag) : Bool :=
  self.all (fun tag => tags.any (fun t => tag == t))

/-- `TagPredicate` in `pattern.rs`: a recursive boolean expression tree over
tags. -/
inductive TagPredicate where
  | and (preds : List TagPredicate)
  | or (preds : List TagPredicate)
  | not (pred : TagPredicate)
  | group (g : Group)
  | name (n : List Nat)
  | tag (t : Tag)

mutual

/-- `TagPattern for TagPredicate` (`match_tags` in `pattern.rs`).  `all` / `any`
over the sub-predicate vectors are unfolded into the mutual helpers below,
matching the short-circuit `Iterator::all` / `Iterator::any` of the source. -/
def TagPredicate.matchTags : TagPredicate → List Tag → Bool
  | .and preds, tags => matchTagsAll preds tags
  | .or preds, tags => matchTagsAny preds tags
  | .not pred, tags => !(TagPredicate.matchTags pred tags)
  | .group g, tags => tags.any (fun t => t.group == g)
  | .name n, tags => tags.any (fun t => t.name == n)
  | .tag t, tags => tagMatchTags t tags

/-- Conjunction over a list of sub-predicates (`preds.iter().all(..)`). -/
def matchTagsAll : List TagPredicate → List Tag → Bool
  | [], _ => true
  | p :: ps, tags => TagPredicate.matchTags p tags && matchTagsAll ps tags

/-- Disjunction over a list of sub-predicates (`preds.iter().any(..)`). -/
def matchTagsAny : List TagPredicate → List Tag → Bool
  | [], _ => false
  | p :: ps, tags => TagPredicate.matchTags p tags || matchTagsAny ps tags

end

/-! ### The on-disk tag encoding (`DirectoryBackedFs::write_tags`, `TagIter`) -/

/-- One step of `write_tags`: the bytes appended to the tag artifact for a
single tag, in the exact order of the `write_all` calls of the source: the
group flag byte, then the group part, then the 4-byte name length and the name
bytes. -/
def writeTagsStep (acc : List Nat) (tag : Tag) : List Nat :=
  let acc := acc ++ (match tag.group with
    | .custom _ => [1]
    | .default => [0])
  let acc := acc ++ (match tag.group with
    | .custom g => [1] ++ le32 g.length ++ g
    | .default => [0])
  acc ++ le32 tag.name.length ++ tag.name

/-- The byte contents of the tag artifact written by
`DirectoryBackedFs::write_tags` for an iterator of tags: the file is truncated
and the per-tag bytes are appended in iteration order. -/
def writeTagsBytes (tags : List Tag) : List Nat :=
  tags.foldl writeTagsStep []

/-- The spec's description of a single tag record (spec section 4.3): one flag
byte (1 if the group is custom, 0 if default); if custom, a constant byte 1, a
4-byte little-endian length and the UTF-8 group bytes; if default, a single 0
byte; followed unconditionally by a 4-byte little-endian length and the UTF-8
name bytes.  This definition follows the spec's words, to be compared with
`writeTagsBytes`, which follows the source. -/
def specTagRecord (tag : Tag) : List Nat :=
  (match tag.group with
    | .custom _ => [1]
    | .default => [0]) ++
  (match tag.group with
    | .custom g => [1] ++ le32 g.length ++ g
    | .default => [0]) ++
  le32 tag.name.length ++ tag.name

/-- The spec's description of the whole tag artifact: the per-tag records in
caller-supplied order, concatenated with no count prefix or other framing. -/
def specTagStream : List Tag → List Nat
  | [] => []
  | tag :: rest => specTagRecord tag ++ specTagStream rest

/-! ### UTF-8 validation (`String::from_utf8`) -/

/-- A UTF-8 continuation byte. -/
def isCont (b : Nat) : Bool := 128 ≤ b && b ≤ 191

/-- Executable UTF-8 validity check over a byte list, following the byte-range
table of RFC 3629 (what Rust's `String::from_utf8` accepts). -/
def validUtf8 : List Nat → Bool
  | [] => true
  | b :: rest =>
    if b ≤ 127 then validUtf8 rest
    else if 194 ≤ b && b ≤ 223 then
      match rest with
      | c :: rest2 => isCont c && validUtf8 rest2
      | [] => false
    else if b = 224 then
      match rest with
      | c :: d :: rest2 => (160 ≤ c && c ≤ 191) && isCont d && validUtf8 rest2
      | _ => false
    else if (225 ≤ b && b ≤ 236) || b = 238 || b = 239 then
      match rest with
      | c :: d :: rest2 => isCont c && isCont d && validUtf8 rest2
      | _ => false
    else if b = 237 then
      match rest with
      | c :: d :: rest2 => (128 ≤ c && c ≤ 159) && isCont d && validUtf8 rest2
      | _ => false
    else if b = 240 then
      match rest with
      | c :: d :: e :: rest2 =>
        (144 ≤ c && c ≤ 191) && isCont d && isCont e && validUtf8 rest2
      | _ => false
    else if 241 ≤ b && b ≤ 243 then
      match rest with
      | c :: d :: e :: rest2 => isCont c && isCont d && isCont e && validUtf8 rest2
      | _ => false
    else if b = 244 then
      match rest with
      | c :: d :: e :: rest2 =>
        (128 ≤ c && c ≤ 143) && isCont d && isCont e && validUtf8 rest2
      | _ => false
    else false

/-! ### The tag artifact decoder (`TagIter` in `dfs.rs`) -/

/-- Take exactly `n` bytes from the front of the stream, or fail if the stream
is shorter (each missing byte makes `Bytes::next` return `None`). -/
def takeExact : Nat → List Nat → Option (List Nat × List Nat)
  | 0, l => some ([], l)
  | _ + 1, [] => none
  | n + 1, b :: rest => (takeExact n rest).map (fun p => (b :: p.1, p.2))

/-- `TagIter::read_u32`: four bytes, little-endian, or `None` at end of
stream. -/
def readU32 : List Nat → Option (Nat × List Nat)
  | a :: b :: c :: d :: rest => some (leDecode [a, b, c, d], rest)
  | _ => none

/-- `TagIter::read_string`: a 4-byte length, that many bytes, then the
`String::from_utf8` check (`.ok()` turns an invalid sequence into `None`). -/
def readString (l : List Nat) : Option (List Nat × List Nat) :=
  match readU32 l with
  | none => none
  | some (len, rest) =>
    match takeExact len rest with
    | none => none
    | some (bytes, rest2) => if validUtf8 bytes then some (bytes, rest2) else none

/-- `TagIter::next`: one flag byte; if it equals 1, a string for the custom
group; then a string for the name. -/
def tagIterNext (l : List Nat) : Option (Tag × List Nat) :=
  match l with
  | [] => none
  | hasGroup :: rest =>
    match (if hasGroup = 1 then
             (readString rest).map (fun p => (Group.custom p.1, p.2))
           else some (Group.default, rest)) with
    | none => none
    | some (group, rest2) =>
      match readString rest2 with
      | none => none
      | some (name, rest3) => some (⟨group, name⟩, rest3)

/-- Fuelled driver for the decoding loop: each successful `tagIterNext`
consumes at least the flag byte, so `l.length` steps always suffice. -/
def decodeTagsFuel : Nat → List Nat → List Tag
  | 0, _ => []
  | fuel + 1, l =>
    match tagIterNext l with
    | none => []
    | some (t, rest) => t :: decodeTagsFuel fuel rest

/-- The full list of tags produced by exhausting a `TagIter` over the given
byte stream. -/
def decodeTags (l : List Nat) : List Tag :=
  decodeTagsFuel l.length l

/-! ### File names of the durable backend -/

/-- Uppercase hexadecimal digit, as produced by the `{:016X}` format. -/
def hexDigit (n : Nat) : Char :=
  match n with
  | 0 => '0' | 1 => '1' | 2 => '2' | 3 => '3' | 4 => '4'
  | 5 => '5' | 6 => '6' | 7 => '7' | 8 => '8' | 9 => '9'
  | 10 => 'A' | 11 => 'B' | 12 => 'C' | 13 => 'D' | 14 => 'E'
  | _ => 'F'

/-- `format!("{:016X}", id)`: the id as a 16-digit zero-padded uppercase
hexadecimal string (`DirectoryBackedFs::file_name`). -/
def toHex16 (n : Nat) : List Char :=
  (List.range 16).map (fun i => hexDigit (n / 16 ^ (15 - i) % 16))

/-- `Path::with_extension` for a stem that contains no `'.'` (the hex file
names never do): the new name is the stem, a dot, and the extension argument
verbatim.  The source passes `".dat"` / `".tag"` (leading dot included), so the
resulting names carry a double dot. -/
def withExtension (stem ext : List Char) : List Char :=
  stem ++ '.' :: ext

/-- The literal extension argument `".dat"` of the source. -/
def dotDat : List Char := ['.', 'd', 'a', 't']

/-- The literal extension argument `".tag"` of the source. -/
def dotTag : List Char := ['.', 't', 'a', 'g']

/-- The counter file name `tbf.dat`. -/
def tbfDat : List Char := ['t', 'b', 'f', '.', 'd', 'a', 't']

/-- Name of the data artifact of a file id:
`file_name(id).with_extension(".dat")`. -/
def dataFileName (id : Nat) : List Char := withExtension (toHex16 id) dotDat

/-- Name of the tag artifact of a file id:
`file_name(id).with_extension(".tag")`. -/
def tagFileName (id : Nat) : List Char := withExtension (toHex16 id) dotTag

/-- `str::split_once('.')`: the parts before and after the first dot, or `none`
when the name holds no dot. -/
def splitOnce (sep : Char) : List Char → Option (List Char × List Char)
  | [] => none
  | c :: rest =>
    if c = sep then some ([], rest)
    else
      match splitOnce sep rest with
      | some p => some (c :: p.1, p.2)
      | none => none

/-- `str::parse::<u64>()`: an optional leading `'+'`, then at least one ASCII
decimal digit, and the value must fit in a `u64`. -/
def parseU64 (s : List Char) : Option Nat :=
  let digits := match s with
    | '+' :: rest => rest
    | other => other
  if digits.isEmpty then none
  else if digits.all (fun c => c.isDigit) then
    let v := digits.foldl (fun acc c => acc * 10 + (c.toNat - 48)) 0
    if v < 18446744073709551616 then some v else none
  else none

/-! ### The modelled backing directory -/

/-- Contents of the backing directory: file names with their byte contents, in
directory-listing order.  A fresh file is appended at the end; overwriting
keeps the position. -/
abbrev Dir := List (List Char × List Nat)

/-- `fs::write` / opening with `create(true).truncate(true)`: replace the
contents if the name exists, otherwise create the file. -/
def writeFile (name : List Char) (content : List Nat) : Dir → Dir
  | [] => [(name, content)]
  | (n, c) :: rest =>
    if n = name then (n, content) :: rest
    else (n, c) :: writeFile name content rest

/-- Reading a file by name (`File::open` + read to end / `fs::read`): `none`
when no such file exists (the `NotFound` i/o error). -/
def readFile (name : List Char) : Dir → Option (List Nat)
  | [] => none
  | (n, c) :: rest => if n = name then some c else readFile name rest

/-- `fs::remove_file`: drop the file when present, otherwise leave the
directory unchanged (the source discards the error with `let _ =`). -/
def removeFsFile (name : List Char) : Dir → Dir
  | [] => []
  | (n, c) :: rest => if n = name then rest else (n, c) :: removeFsFile name rest

/-! ### Errors (`dfs.rs` `Error`, `error.rs` `ErrorKind`) -/

/-- The kinds of `std::io::Error` the model distinguishes. -/
inductive IoKind where
  | notFound
  | unexpectedEof
  | other
deriving DecidableEq, Repr

/-- `Error` in `dfs.rs`. -/
inductive DfsError where
  | fileNotFound (id : Nat)
  | poisoned
  | ioError (k : IoKind)
deriving DecidableEq, Repr

/-- The generic error kind of `error.rs` (named `Kind` at the `dfs.rs` use
site, declared as `ErrorKind`). -/
inductive Kind where
  | fileNotFound (id : Nat)
  | source (k : IoKind)
  | state
  | other
deriving DecidableEq, Repr

/-- `Error::generic_kind` for the directory-backed filesystem. -/
def DfsError.generic_kind : DfsError → Kind
  | .fileNotFound id => .fileNotFound id
  | .ioError e => .source e
  | .poisoned => .state

/-- `Error` in `imfs.rs`. -/
inductive ImfsError where
  | fileNotFound
  | poisoned
deriving DecidableEq, Repr

/-- Modelled from the spec: the error-trait implementation for the in-memory
backend's `Error` is absent from `src/` (only the trait itself is there); the
spec's taxonomy (sections 4.2 and 7) classifies a file-not-found error under
the `FileNotFound` kind and a poisoned lock under `State`.  The in-memory error
carries no id, so the kind is rendered with the id the caller asked about. -/
def ImfsError.generic_kind (queried : Nat) : ImfsError → Kind
  | .fileNotFound => .fileNotFound queried
  | .poisoned => .state

/-! ### The durable backend (`DirectoryBackedFs` in `dfs.rs`) -/

/-- State of one `DirectoryBackedFs` instance: the validity of the backing
path (`dir.is_dir()`), the directory contents, and the in-memory
`SavedState { cur_id }` behind the lock. -/
structure DfsState where
  dirOk : Bool
  dir : Dir
  cur_id : Nat
deriving DecidableEq, Repr

/-- `DirectoryBackedFs::assert_dir`. -/
def assertDir (s : DfsState) : RustResult DfsError Unit :=
  if s.dirOk then .ok () else .err (.ioError .other)

/-- `SavedState::from_path` on `dir/tbf.dat`: a missing file defaults the
counter to 256; a file shorter than 8 bytes makes `read_exact` fail; otherwise
the first 8 bytes are decoded little-endian. -/
def SavedState.from_path (dir : Dir) : RustResult DfsError Nat :=
  match readFile tbfDat dir with
  | some bytes =>
    if bytes.length < 8 then .err (.ioError .unexpectedEof)
    else .ok (leDecode (bytes.take 8))
  | none => .ok 256

/-- `DirectoryBackedFs::new` on an existing (or freshly created) directory with
the given contents. -/
def DirectoryBackedFs.new (dir : Dir) : RustResult DfsError DfsState :=
  (SavedState.from_path dir).map (fun c => ⟨true, dir, c⟩)

/-- `DirectoryBackedFs::write_tags`: truncate-and-rewrite of the tag artifact
with the encoded stream. -/
def DirectoryBackedFs.write_tags (id : Nat) (tags : List Tag) (dir : Dir) : Dir :=
  writeFile (tagFileName id) (writeTagsBytes tags) dir

/-- `DirectoryBackedFs::read_tags`, fully drained: `File::open` fails with the
`NotFound` i/o error when the tag artifact is missing; otherwise the `TagIter`
stream is decoded. -/
def DirectoryBackedFs.read_tags (s : DfsState) (id : Nat) : RustResult DfsError (List Tag) :=
  match readFile (tagFileName id) s.dir with
  | none => .err (.ioError .notFound)
  | some bytes => .ok (decodeTags bytes)

/-- `DirectoryBackedFs::add_file`: read the counter, write the data artifact,
write the tag artifact, increment the counter (wrapping `u64` addition), and
persist it into `tbf.dat`; the pre-increment id is returned. -/
def DirectoryBackedFs.add_file (s : DfsState) (data : List Nat) (tags : List Tag) :
    RustResult DfsError (Nat × DfsState) :=
  match assertDir s with
  | .err e => .err e
  | .panicked => .panicked
  | .ok _ =>
    let cur := s.cur_id
    let dir1 := writeFile (dataFileName cur) data s.dir
    let dir2 := DirectoryBackedFs.write_tags cur tags dir1
    let cur2 := (s.cur_id + 1) % 18446744073709551616
    let dir3 := writeFile tbfDat (le64 cur2) dir2
    .ok (cur, { s with dir := dir3, cur_id := cur2 })

/-- `DirectoryBackedFs::edit_file`: overwrite the data artifact and/or the tag
artifact of the id, without any liveness check. -/
def DirectoryBackedFs.edit_file (s : DfsState) (id : Nat)
    (data : Option (List Nat)) (tags : Option (List Tag)) :
    RustResult DfsError (Unit × DfsState) :=
  match assertDir s with
  | .err e => .err e
  | .panicked => .panicked
  | .ok _ =>
    let dir1 := match data with
      | some d => writeFile (dataFileName id) d s.dir
      | none => s.dir
    let dir2 := match tags with
      | some ts => DirectoryBackedFs.write_tags id ts dir1
      | none => dir1
    .ok ((), { s with dir := dir2 })

/-- `DirectoryBackedFs::remove_file`: delete both artifacts, ignoring a missing
file, and succeed. -/
def DirectoryBackedFs.remove_file (s : DfsState) (id : Nat) :
    RustResult DfsError (Unit × DfsState) :=
  match assertDir s with
  | .err e => .err e
  | .panicked => .panicked
  | .ok _ =>
    let dir1 := removeFsFile (dataFileName id) s.dir
    let dir2 := removeFsFile (tagFileName id) dir1
    .ok ((), { s with dir := dir2 })

/-- The directory scan of `DirectoryBackedFs::search_tags` over the remaining
directory entries: split each name at the first dot, keep entries whose
extension part is literally `tag`, parse the stem as a decimal `u64` (skipping
failures silently), re-open the tag artifact derived from the parsed id, and
keep the id when the pattern matches the decoded tags. -/
def searchEntries (s : DfsState) (p : List Tag → Bool) :
    List (List Char × List Nat) → RustResult DfsError (List Nat)
  | [] => .ok []
  | (name, _) :: rest =>
    match splitOnce '.' name with
    | none => searchEntries s p rest
    | some (stem, ext) =>
      if ext = ['t', 'a', 'g'] then
        match parseU64 stem with
        | none => searchEntries s p rest
        | some id =>
          match readFile (tagFileName id) s.dir with
          | none => .err (.ioError .notFound)
          | some bytes =>
            match searchEntries s p rest with
            | .ok out => .ok (if p (decodeTags bytes) then id :: out else out)
            | other => other
      else searchEntries s p rest

/-- `DirectoryBackedFs::search_tags`, with the pattern supplied as its
`match_tags` closure over the decoded tag list (the generic `P: TagPattern`
parameter of the source). -/
def DirectoryBackedFs.search_tags (s : DfsState) (p : List Tag → Bool) :
    RustResult DfsError (List Nat) :=
  match assertDir s with
  | .err e => .err e
  | .panicked => .panicked
  | .ok _ => searchEntries s p s.dir

/-- `DirectoryBackedFs::get_info`: read the data artifact (`fs::read`, failing
with the `NotFound` i/o error when missing), decode the tag artifact, and
collect the decoded tags into the tag set. -/
def DirectoryBackedFs.get_info (s : DfsState) (id : Nat) :
    RustResult DfsError FileInfo :=
  match assertDir s with
  | .err e => .err e
  | .panicked => .panicked
  | .ok _ =>
    match readFile (dataFileName id) s.dir with
    | none => .err (.ioError .notFound)
    | some data =>
      match DirectoryBackedFs.read_tags s id with
      | .err e => .err e
      | .panicked => .panicked
      | .ok tags => .ok ⟨id, collectSet tags, data⟩

/-! ### The in-memory backend (`InMemoryFs` in `imfs.rs`) -/

/-- Lookup in the modelled `BTreeMap` (a key-sorted association list). -/
def mapGet (k : Nat) : List (Nat × List Tag) → Option (List Tag)
  | [] => none
  | (k2, v) :: rest => if k = k2 then some v else mapGet k rest

/-- `BTreeMap::insert`: place the key at its sorted position, replacing an
equal key. -/
def mapInsert (k : Nat) (v : List Tag) : List (Nat × List Tag) → List (Nat × List Tag)
  | [] => [(k, v)]
  | (k2, v2) :: rest =>
    if k < k2 then (k, v) :: (k2, v2) :: rest
    else if k = k2 then (k, v) :: rest
    else (k2, v2) :: mapInsert k v rest

/-- `BTreeMap::remove`: drop the entry with the key, if any. -/
def mapRemove (k : Nat) : List (Nat × List Tag) → List (Nat × List Tag)
  | [] => []
  | (k2, v) :: rest => if k = k2 then rest else (k2, v) :: mapRemove k rest

/-- State of one `InMemoryFs` instance: the `Vec<Box<[u8]>>` of file bytes and
the `BTreeMap<FileId, BTreeSet<Tag>>` of live tag sets. -/
structure ImfsState where
  files : List (List Nat)
  tags : List (Nat × List Tag)
deriving DecidableEq, Repr

/-- `InMemoryFs::new`. -/
def InMemoryFs.new : ImfsState := ⟨[], []⟩

/-- The slice index `(id.0 - 255) as usize` computed with `u64` wrapping
subtraction: for ids below 255 the wrapped index is astronomically large and
the subsequent indexing panics, as in a release build. -/
def imfsIdx (id : Nat) : Nat := (id + 18446744073709551616 - 255) % 18446744073709551616

/-- In-bounds list update; `none` models the index-out-of-bounds panic of
`files[idx] = value`. -/
def listSet : List (List Nat) → Nat → List Nat → Option (List (List Nat))
  | l, i, v => if i < l.length then some (l.set i v) else none

/-- `InMemoryFs::assert_file_exists`: the id must be a key of the tag map. -/
def InMemoryFs.assert_file_exists (s : ImfsState) (id : Nat) : RustResult ImfsError Unit :=
  match mapGet id s.tags with
  | none => .err .fileNotFound
  | some _ => .ok ()

/-- `InMemoryFs::add_file`: push the bytes, then allocate
`FileId(files.len() + 255)` from the length after the push, and insert the
collected tag set under the new id. -/
def InMemoryFs.add_file (s : ImfsState) (data : List Nat) (tags : List Tag) :
    RustResult ImfsError (Nat × ImfsState) :=
  let files2 := s.files ++ [data]
  let newId := files2.length + 255
  .ok (newId, ⟨files2, mapInsert newId (collectSet tags) s.tags⟩)

/-- `InMemoryFs::edit_file`: liveness check, then overwrite the byte slot
(panicking when the wrapped index is out of bounds) and/or replace the tag
set. -/
def InMemoryFs.edit_file (s : ImfsState) (id : Nat)
    (data : Option (List Nat)) (tags : Option (List Tag)) :
    RustResult ImfsError (Unit × ImfsState) :=
  match mapGet id s.tags with
  | none => .err .fileNotFound
  | some _ =>
    let filesR := match data with
      | none => some s.files
      | some d => listSet s.files (imfsIdx id) d
    match filesR with
    | none => .panicked
    | some files2 =>
      let tags2 := match tags with
        | none => s.tags
        | some ts => mapInsert id (collectSet ts) s.tags
      .ok ((), ⟨files2, tags2⟩)

/-- `InMemoryFs::remove_file`: liveness check, then clear the byte slot to the
empty slice (panicking when the wrapped index is out of bounds) and drop the
tag entry. -/
def InMemoryFs.remove_file (s : ImfsState) (id : Nat) :
    RustResult ImfsError (Unit × ImfsState) :=
  match mapGet id s.tags with
  | none => .err .fileNotFound
  | some _ =>
    match listSet s.files (imfsIdx id) [] with
    | none => .panicked
    | some files2 => .ok ((), ⟨files2, mapRemove id s.tags⟩)

/-- The scan of `InMemoryFs::search_tags` over the tag-map entries in map
order. -/
def searchGo (p : List Tag → Bool) : List (Nat × List Tag) → List Nat
  | [] => []
  | (id, ftags) :: rest =>
    if p ftags then id :: searchGo p rest else searchGo p rest

/-- `InMemoryFs::search_tags`, with the pattern supplied as its `match_tags`
closure. -/
def InMemoryFs.search_tags (s : ImfsState) (p : List Tag → Bool) :
    RustResult ImfsError (List Nat) :=
  .ok (searchGo p s.tags)

/-- `InMemoryFs::get_info`: liveness check, then the byte slot at the wrapped
index (panicking when out of bounds) and the stored tag set. -/
def InMemoryFs.get_info (s : ImfsState) (id : Nat) : RustResult ImfsError FileInfo :=
  match mapGet id s.tags with
  | none => .err .fileNotFound
  | some ftags =>
    match s.files[imfsIdx id]? with
    | none => .panicked
    | some data => .ok ⟨id, ftags, data⟩

/-! ### Supporting lemmas -/

theorem writeTagsStep_eq (acc : List Nat) (tag : Tag) :
    writeTagsStep acc tag = acc ++ specTagRecord tag := by
  obtain ⟨g, n⟩ := tag
  cases g <;> simp [writeTagsStep, specTagRecord]

theorem foldl_writeTagsStep (tags : List Tag) (acc : List Nat) :
    List.foldl writeTagsStep acc tags = acc ++ specTagStream tags := by
  induction tags generalizing acc with
  | nil => simp [specTagStream]
  | cons t rest ih => simp [List.foldl, writeTagsStep_eq, specTagStream, ih]

theorem readFile_writeFile_self (name : List Char) (v : List Nat) (d : Dir) :
    readFile name (writeFile name v d) = some v := by
  induction d with
  | nil => simp [writeFile, readFile]
  | cons e rest ih =>
    obtain ⟨n, c⟩ := e
    by_cases h : n = name
    · simp [writeFile, readFile, h]
    · simp [writeFile, readFile, h, ih]

theorem readFile_writeFile_ne (n2 name : List Char) (v : List Nat) (d : Dir)
    (h : n2 ≠ name) : readFile n2 (writeFile name v d) = readFile n2 d := by
  induction d with
  | nil =>
    have h2 : ¬name = n2 := fun e => h e.symm
    simp [writeFile, readFile, h2]
  | cons e rest ih =>
    obtain ⟨n, c⟩ := e
    by_cases hn : n = name
    · subst hn
      have h2 : ¬n = n2 := fun e => h e.symm
      simp [writeFile, readFile, h2]
    · simp [writeFile, readFile, hn, ih]

theorem readFile_eq_none_of_not_mem (name : List Char) (d : Dir)
    (h : name ∉ d.map Prod.fst) : readFile name d = none := by
  induction d with
  | nil => simp [readFile]
  | cons e rest ih =>
    obtain ⟨n, c⟩ := e
    simp only [List.map_cons, List.mem_cons] at h
    push_neg at h
    have : ¬n = name := fun h2 => h.1 (h2 ▸ rfl)
    simp [readFile, this, ih h.2]

theorem readFile_removeFsFile_self (name : List Char) (d : Dir)
    (h : (d.map Prod.fst).Nodup) : readFile name (removeFsFile name d) = none := by
  induction d with
  | nil => simp [removeFsFile, readFile]
  | cons e rest ih =>
    obtain ⟨n, c⟩ := e
    simp only [List.map_cons, List.nodup_cons] at h
    by_cases hn : n = name
    · subst hn
      simp only [removeFsFile, if_pos rfl]
      exact readFile_eq_none_of_not_mem n rest h.1
    · simp [removeFsFile, readFile, hn, ih h.2]

theorem readFile_removeFsFile_ne (n2 name : List Char) (d : Dir)
    (h : n2 ≠ name) : readFile n2 (removeFsFile name d) = readFile n2 d := by
  induction d with
  | nil => simp [removeFsFile]
  | cons e rest ih =>
    obtain ⟨n, c⟩ := e
    by_cases hn : n = name
    · subst hn
      have h2 : ¬n = n2 := fun e => h e.symm
      simp [removeFsFile, readFile, h2]
    · simp [removeFsFile, readFile, hn, ih]

theorem tagFileName_ne_dataFileName (id : Nat) : tagFileName id ≠ dataFileName id := by
  intro h
  simp only [tagFileName, dataFileName, withExtension] at h
  have h2 : '.' :: dotTag = '.' :: dotDat := List.append_cancel_left h
  simp [dotTag, dotDat] at h2

theorem mapGet_eq_none_of_not_mem (k : Nat) (m : List (Nat × List Tag))
    (h : k ∉ m.map Prod.fst) : mapGet k m = none := by
  induction m with
  | nil => simp [mapGet]
  | cons e rest ih =>
    obtain ⟨k2, v⟩ := e
    simp only [List.map_cons, List.mem_cons] at h
    push_neg at h
    simp [mapGet, h.1, ih h.2]

theorem mapGet_mapRemove_self (k : Nat) (m : List (Nat × List Tag))
    (h : (m.map Prod.fst).Nodup) : mapGet k (mapRemove k m) = none := by
  induction m with
  | nil => simp [mapRemove, mapGet]
  | cons e rest ih =>
    obtain ⟨k2, v⟩ := e
    simp only [List.map_cons, List.nodup_cons] at h
    by_cases hk : k = k2
    · subst hk
      simp [mapRemove, mapGet_eq_none_of_not_mem k rest h.1]
    · simp [mapRemove, mapGet, hk, Ne.symm (fun h2 => hk h2.symm), ih h.2]

theorem mapGet_none_of_forall_lt (n : Nat) (m : List (Nat × List Tag))
    (h : ∀ kv ∈ m, kv.1 < n) : mapGet n m = none := by
  induction m with
  | nil => simp [mapGet]
  | cons e rest ih =>
    obtain ⟨k2, v⟩ := e
    have h1 : k2 < n := h (k2, v) (List.mem_cons_self _ _)
    have h2 : ¬n = k2 := by omega
    simp [mapGet, h2, ih (fun kv hkv => h kv (List.mem_cons_of_mem _ hkv))]

theorem mem_keys_mapInsert (x k : Nat) (v : List Tag) (m : List (Nat × List Tag))
    (h : x ∈ (mapInsert k v m).map Prod.fst) : x = k ∨ x ∈ m.map Prod.fst := by
  induction m with
  | nil => simpa [mapInsert] using h
  | cons e rest ih =>
    obtain ⟨k2, v2⟩ := e
    by_cases h1 : k < k2
    · simp only [mapInsert, if_pos h1, List.map_cons, List.mem_cons] at h
      rcases h with h | h | h
      · exact Or.inl h
      · exact Or.inr (by simp [h])
      · exact Or.inr (by simp [h])
    · by_cases h2 : k = k2
      · simp only [mapInsert, if_neg h1, if_pos h2, List.map_cons, List.mem_cons] at h
        rcases h with h | h
        · exact Or.inl h
        · exact Or.inr (by simp [h])
      · simp only [mapInsert, if_neg h1, if_neg h2, List.map_cons, List.mem_cons] at h
        rcases h with h | h
        · exact Or.inr (by simp [h])
        · rcases ih h with h | h
          · exact Or.inl h
          · exact Or.inr (by simp [h])

theorem mapInsert_pairwise (k : Nat) (v : List Tag) (m : List (Nat × List Tag))
    (h : m.Pairwise (fun a b => a.1 < b.1)) :
    (mapInsert k v m).Pairwise (fun a b => a.1 < b.1) := by
  induction m with
  | nil => simp [mapInsert]
  | cons e rest ih =>
    obtain ⟨k2, v2⟩ := e
    rw [List.pairwise_cons] at h
    by_cases h1 : k < k2
    · rw [mapInsert, if_pos h1]
      refine List.Pairwise.cons ?_ (List.Pairwise.cons h.1 h.2)
      intro b hb
      rcases List.mem_cons.mp hb with hb | hb
      · simpa [hb] using h1
      · exact lt_trans h1 (h.1 b hb)
    · by_cases h2 : k = k2
      · rw [mapInsert, if_neg h1, if_pos h2]
        exact List.Pairwise.cons (fun b hb => h2 ▸ h.1 b hb) h.2
      · rw [mapInsert, if_neg h1, if_neg h2]
        refine List.Pairwise.cons ?_ (ih h.2)
        intro b hb
        have hk2 : k2 < k := by omega
        rcases mem_keys_mapInsert b.1 k v rest (List.mem_map_of_mem Prod.fst hb) with hx | hx
        · simpa [hx] using hk2
        · rcases List.mem_map.mp hx with ⟨kv, hkv, hfst⟩
          have := h.1 kv hkv
          omega

theorem mem_searchGo (x : Nat) (p : List Tag → Bool) (m : List (Nat × List Tag))
    (h : x ∈ searchGo p m) : x ∈ m.map Prod.fst := by
  induction m with
  | nil => simp [searchGo] at h
  | cons e rest ih =>
    obtain ⟨k2, v2⟩ := e
    by_cases hp : p v2
    · simp only [searchGo, if_pos hp, List.mem_cons] at h
      rcases h with h | h
      · simp [h]
      · simp [ih h]
    · simp only [searchGo, if_neg hp] at h
      simp [ih h]

theorem searchGo_pairwise (p : List Tag → Bool) (m : List (Nat × List Tag))
    (h : m.Pairwise (fun a b => a.1 < b.1)) :
    (searchGo p m).Pairwise (fun a b => a < b) := by
  induction m with
  | nil => simp [searchGo]
  | cons e rest ih =>
    obtain ⟨k2, v2⟩ := e
    rw [List.pairwise_cons] at h
    by_cases hp : p v2
    · rw [searchGo, if_pos hp]
      refine List.Pairwise.cons ?_ (ih h.2)
      intro b hb
      rcases List.mem_map.mp (mem_searchGo b p rest hb) with ⟨kv, hkv, hfst⟩
      have := h.1 kv hkv
      omega
    · rw [searchGo, if_neg hp]
      exact ih h.2

theorem imfs_remove_ok_tags (si si2 : ImfsState) (r : Nat)
    (h : InMemoryFs.remove_file si r = .ok ((), si2)) :
    si2.tags = mapRemove r si.tags := by
  unfold InMemoryFs.remove_file at h
  cases h1 : mapGet r si.tags with
  | none => simp [h1] at h
  | some v =>
    cases h2 : listSet si.files (imfsIdx r) [] with
    | none => simp [h1, h2] at h
    | some files2 =>
      simp only [h1, h2, RustResult.ok.injEq, Prod.mk.injEq, true_and] at h
      simp [← h]

theorem dfs_remove_ok (s s2 : DfsState) (id : Nat)
    (h : DirectoryBackedFs.remove_file s id = .ok ((), s2)) :
    s2.dirOk = s.dirOk ∧ s2.cur_id = s.cur_id ∧
      s2.dir = removeFsFile (tagFileName id) (removeFsFile (dataFileName id) s.dir) := by
  unfold DirectoryBackedFs.remove_file assertDir at h
  by_cases hd : s.dirOk
  · simp only [hd, if_true, RustResult.ok.injEq, Prod.mk.injEq, true_and] at h
    simp [← h, hd]
  · simp [hd] at h

theorem imfs_edit_data_only_tags (si si2 : ImfsState) (i : Nat) (d : List Nat)
    (h : InMemoryFs.edit_file si i (some d) none = .ok ((), si2)) :
    si2.tags = si.tags := by
  unfold InMemoryFs.edit_file at h
  cases h1 : mapGet i si.tags with
  | none => simp [h1] at h
  | some v =>
    cases h2 : listSet si.files (imfsIdx i) d with
    | none => simp [h1, h2] at h
    | some files2 =>
      simp only [h1, h2, RustResult.ok.injEq, Prod.mk.injEq, true_and] at h
      simp [← h]

theorem imfs_edit_tags_only_files (si si2 : ImfsState) (i : Nat) (ts : List Tag)
    (h : InMemoryFs.edit_file si i none (some ts) = .ok ((), si2)) :
    si2.files = si.files := by
  unfold InMemoryFs.edit_file at h
  cases h1 : mapGet i si.tags with
  | none => simp [h1] at h
  | some v =>
    simp only [h1, RustResult.ok.injEq, Prod.mk.injEq, true_and] at h
    simp [← h]

theorem map_eq_forall {α β : Type} (f g : α → β) :
    ∀ l : List α, l.map f = l.map g → ∀ x ∈ l, f x = g x := by
  intro l
  induction l with
  | nil => intro _ x hx; cases hx
  | cons a rest ih =>
    intro h x hx
    simp only [List.map_cons, List.cons.injEq] at h
    rcases List.mem_cons.mp hx with hx | hx
    · exact hx ▸ h.1
    · exact ih h.2 x hx

theorem hexDigit_inj : ∀ x, x < 16 → ∀ y, y < 16 → hexDigit x = hexDigit y → x = y := by
  decide

theorem digits_inj : ∀ k a b : Nat, a < 16 ^ k → b < 16 ^ k →
    (∀ i, i < k → a / 16 ^ i % 16 = b / 16 ^ i % 16) → a = b := by
  intro k
  induction k with
  | zero =>
    intro a b ha hb _
    simp only [pow_zero, Nat.lt_one_iff] at ha hb
    omega
  | succ k ih =>
    intro a b ha hb h
    have h0 := h 0 (Nat.succ_pos k)
    simp only [pow_zero, Nat.div_one] at h0
    have hq : a / 16 = b / 16 := by
      refine ih (a / 16) (b / 16) ?_ ?_ ?_
      · rw [Nat.div_lt_iff_lt_mul (by omega)]
        calc a < 16 ^ (k + 1) := ha
          _ = 16 ^ k * 16 := by ring
      · rw [Nat.div_lt_iff_lt_mul (by omega)]
        calc b < 16 ^ (k + 1) := hb
          _ = 16 ^ k * 16 := by ring
      · intro i hi
        have hi2 := h (i + 1) (by omega)
        have ha2 : a / 16 / 16 ^ i = a / 16 ^ (i + 1) := by
          rw [Nat.div_div_eq_div_mul]
          congr 1
          ring
        have hb2 : b / 16 / 16 ^ i = b / 16 ^ (i + 1) := by
          rw [Nat.div_div_eq_div_mul]
          congr 1
          ring
        rw [ha2, hb2]
        exact hi2
    omega

theorem toHex16_length (n : Nat) : (toHex16 n).length = 16 := by
  simp [toHex16]

theorem toHex16_inj (a b : Nat) (ha : a < 18446744073709551616)
    (hb : b < 18446744073709551616) (h : toHex16 a = toHex16 b) : a = b := by
  have h16 : (16 : Nat) ^ 16 = 18446744073709551616 := by norm_num
  refine digits_inj 16 a b (h16 ▸ ha) (h16 ▸ hb) ?_
  intro i hi
  have hmem : (15 - i) ∈ List.range 16 := List.mem_range.mpr (by omega)
  have hdig := map_eq_forall _ _ (List.range 16) h (15 - i) hmem
  have h15 : 15 - (15 - i) = i := by omega
  rw [h15] at hdig
  exact hexDigit_inj _ (Nat.mod_lt _ (by norm_num)) _ (Nat.mod_lt _ (by norm_num)) hdig

theorem dataFileName_inj (a b : Nat) (ha : a < 18446744073709551616)
    (hb : b < 18446744073709551616) (h : dataFileName a = dataFileName b) : a = b := by
  simp only [dataFileName, withExtension] at h
  exact toHex16_inj a b ha hb
    (List.append_inj_left h (by rw [toHex16_length, toHex16_length]))

/-! ### The claims -/

/-- C1: the claimed round trip (`get_info` after `add_file` returns the
supplied bytes and the duplicate-collapsed tag set) fails in the code of both
backends at the concrete input of the crate's own `rw_file` test.  The durable
backend returns the data but an empty tag set, because `write_tags` emits a
second group byte that `TagIter` never consumes, so the decoder misreads the
name length; the in-memory backend panics, because ids are `files.len() + 255`
after the push while the lookup indexes `files[id - 255]`, one past the slot
of the newest file. -/
theorem claim1_roundtrip_failure :
    ((DirectoryBackedFs.new []).bind (fun s0 =>
      (DirectoryBackedFs.add_file s0 [0, 1, 2, 3]
          [⟨.default, [97]⟩, ⟨.custom [103], [98]⟩]).bind (fun p =>
      (DirectoryBackedFs.get_info p.2 p.1).map (fun i => (p.1, i.data, i.tags))))
        = .ok (256, [0, 1, 2, 3], ([] : List Tag)))
    ∧ collectSet [⟨.default, [97]⟩, ⟨.custom [103], [98]⟩] ≠ ([] : List Tag)
    ∧ ((InMemoryFs.add_file InMemoryFs.new [0, 1, 2, 3]
          [⟨.default, [97]⟩, ⟨.custom [103], [98]⟩]).bind (fun p =>
        InMemoryFs.get_info p.2 p.1) = .panicked) := by
  refine ⟨by decide, by decide, by decide⟩

/-- C2: search completeness fails in the durable backend: after adding a file
with tag `a`, `search_tags(a)` returns the empty list instead of a list
containing the new id, because the artifacts are written under
`<HEX>..tag` (`with_extension(".tag")`) while the scan keeps only names whose
part after the first dot is exactly `tag`, and parses the hexadecimal stem as
decimal.  The in-memory backend behaves as claimed at the same input: the
added id is returned for a held tag and omitted for a tag not held. -/
theorem claim2_search_failure :
    ((DirectoryBackedFs.new []).bind (fun s0 =>
      (DirectoryBackedFs.add_file s0 [0] [⟨.default, [97]⟩]).bind (fun p =>
      (DirectoryBackedFs.search_tags p.2 (tagMatchTags ⟨.default, [97]⟩)).map
        (fun out => (p.1, out)))) = .ok (256, ([] : List Nat)))
    ∧ ((InMemoryFs.add_file InMemoryFs.new [0] [⟨.default, [97]⟩]).bind (fun p =>
        (InMemoryFs.search_tags p.2 (tagMatchTags ⟨.default, [97]⟩)).map
          (fun out => (p.1, out))) = .ok (256, [256]))
    ∧ ((InMemoryFs.add_file InMemoryFs.new [0] [⟨.default, [97]⟩]).bind (fun p =>
        (InMemoryFs.search_tags p.2 (tagMatchTags ⟨.custom [103], [98]⟩)).map
          (fun out => (p.1, out))) = .ok (256, ([] : List Nat))) := by
  refine ⟨by decide, by decide, by decide⟩

/-- C3: the byte stream produced by `write_tags` is exactly the spec's per-tag
records, in caller-supplied iteration order, concatenated with no count prefix
or other framing. -/
theorem claim3_tag_encoding (tags : List Tag) :
    writeTagsBytes tags = specTagStream tags := by
  simpa [writeTagsBytes] using foldl_writeTagsStep tags []

/-- C9: over any candidate tag set, `And` of an empty predicate list matches
(vacuously true) and `Or` of an empty predicate list does not match
(vacuously false). -/
theorem claim9_vacuous_and_or (S : List Tag) :
    TagPredicate.matchTags (.and []) S = true
      ∧ TagPredicate.matchTags (.or []) S = false := by
  refine ⟨?_, ?_⟩ <;> simp [TagPredicate.matchTags, matchTagsAll, matchTagsAny]

/-- C10: the in-memory backend's `search_tags` succeeds and returns ids in
strictly ascending numeric order, for every pattern and every state whose tag
map satisfies the `BTreeMap` representation invariant (keys strictly sorted —
established by `InMemoryFs.new` and preserved by `mapInsert` / `mapRemove`). -/
theorem claim10_imfs_search_sorted (si : ImfsState) (p : List Tag → Bool)
    (h : si.tags.Pairwise (fun a b => a.1 < b.1)) :
    ∃ out, InMemoryFs.search_tags si p = .ok out
      ∧ out.Pairwise (fun a b => a < b) :=
  ⟨searchGo p si.tags, rfl, searchGo_pairwise p si.tags h⟩

/-- Witness for C10 at a concrete sorted state and the constantly-true
pattern. -/
theorem claim10_imfs_search_sorted_witness :
    ∃ out, InMemoryFs.search_tags ⟨[[], []], [(256, []), (300, [])]⟩ (fun _ => true)
        = .ok out ∧ out.Pairwise (fun a b => a < b) :=
  claim10_imfs_search_sorted ⟨[[], []], [(256, []), (300, [])]⟩ (fun _ => true)
    (by decide)

/-- C4 counterexample: on a durable backend over an empty directory, `get_info`
of the never-added id 256 fails with an i/o `NotFound` error whose generic
kind is `Source`, not `FileNotFound` as the claim states. -/
theorem claim4_counterexample :
    DirectoryBackedFs.get_info ⟨true, [], 256⟩ 256 = .err (.ioError .notFound)
    ∧ (DfsError.ioError .notFound).generic_kind = Kind.source .notFound
    ∧ Kind.source .notFound ≠ Kind.fileNotFound 256 := by
  refine ⟨by decide, by decide, by decide⟩

/-- C4 as amended: `get_info` on a non-live id fails in both backends,
including right after a successful `remove_file` of that id, but the error's
generic kind differs: the in-memory backend yields `FileNotFound`, while the
durable backend yields the underlying i/o `NotFound` error, of generic kind
`Source`. -/
theorem claim4_get_info_not_live (si si2 : ImfsState) (i r : Nat)
    (s s2 : DfsState) (j jr : Nat)
    (h1 : mapGet i si.tags = none)
    (hnd : (si.tags.map Prod.fst).Nodup)
    (hrm : InMemoryFs.remove_file si r = .ok ((), si2))
    (hok : s.dirOk = true)
    (hdat : readFile (dataFileName j) s.dir = none)
    (hnd2 : (s.dir.map Prod.fst).Nodup)
    (hrm2 : DirectoryBackedFs.remove_file s jr = .ok ((), s2)) :
    (InMemoryFs.get_info si i = .err .fileNotFound
      ∧ ImfsError.fileNotFound.generic_kind i = Kind.fileNotFound i)
    ∧ InMemoryFs.get_info si2 r = .err .fileNotFound
    ∧ (DirectoryBackedFs.get_info s j = .err (.ioError .notFound)
      ∧ (DfsError.ioError .notFound).generic_kind = Kind.source .notFound)
    ∧ DirectoryBackedFs.get_info s2 jr = .err (.ioError .notFound) := by
  obtain ⟨hok2, _, hdir2⟩ := dfs_remove_ok s s2 jr hrm2
  have htags2 := imfs_remove_ok_tags si si2 r hrm
  refine ⟨⟨?_, rfl⟩, ?_, ⟨?_, rfl⟩, ?_⟩
  · simp [InMemoryFs.get_info, h1]
  · simp [InMemoryFs.get_info, htags2, mapGet_mapRemove_self r si.tags hnd]
  · simp [DirectoryBackedFs.get_info, assertDir, hok, hdat]
  · have hnone : readFile (dataFileName jr) s2.dir = none := by
      rw [hdir2,
        readFile_removeFsFile_ne _ _ _ (Ne.symm (tagFileName_ne_dataFileName jr)),
        readFile_removeFsFile_self _ _ hnd2]
    simp [DirectoryBackedFs.get_info, assertDir, hok2, hok, hnone]

/-- Witness for C4 as amended, at concrete states: a two-file in-memory store
and a queried id 300 that was never added, the same store after removing id
256, and a durable backend over an empty directory. -/
theorem claim4_get_info_not_live_witness :
    (InMemoryFs.get_info ⟨[[5], [6]], [(256, []), (257, [])]⟩ 300 = .err .fileNotFound
      ∧ ImfsError.fileNotFound.generic_kind 300 = Kind.fileNotFound 300)
    ∧ InMemoryFs.get_info ⟨[[5], []], [(257, [])]⟩ 256 = .err .fileNotFound
    ∧ (DirectoryBackedFs.get_info ⟨true, [], 256⟩ 256 = .err (.ioError .notFound)
      ∧ (DfsError.ioError .notFound).generic_kind = Kind.source .notFound)
    ∧ DirectoryBackedFs.get_info ⟨true, [], 256⟩ 300 = .err (.ioError .notFound) :=
  claim4_get_info_not_live ⟨[[5], [6]], [(256, []), (257, [])]⟩ ⟨[[5], []], [(257, [])]⟩
    300 256 ⟨true, [], 256⟩ ⟨true, [], 256⟩ 256 300 (by decide) (by decide) (by decide)
    (by decide) (by decide) (by decide) (by decide)

/-- C5 counterexample: on a durable backend over an empty directory, where no
file is live, `edit_file` of id 256 succeeds (with the state unchanged)
instead of failing with `FileNotFound` as the claim states. -/
theorem claim5_counterexample :
    DirectoryBackedFs.edit_file ⟨true, [], 256⟩ 256 none none
      = .ok ((), ⟨true, [], 256⟩) := by
  decide

/-- C5 as amended: the in-memory backend rejects a non-live id with
`FileNotFound`, while the durable backend performs no liveness check and
succeeds; in both backends, a successful edit supplying only data leaves the
stored tags unchanged, and one supplying only tags leaves the stored bytes
unchanged. -/
theorem claim5_edit_contract (si si2 si3 : ImfsState) (si2o si3o : ImfsState)
    (i i2 i3 : Nat) (d0 : Option (List Nat)) (t0 : Option (List Tag))
    (d : List Nat) (ts : List Tag) (s : DfsState) (j : Nat)
    (d2 : List Nat) (ts2 : List Tag)
    (h1 : mapGet i si.tags = none)
    (h2 : InMemoryFs.edit_file si2 i2 (some d) none = .ok ((), si2o))
    (h3 : InMemoryFs.edit_file si3 i3 none (some ts) = .ok ((), si3o))
    (hok : s.dirOk = true) :
    InMemoryFs.edit_file si i d0 t0 = .err .fileNotFound
    ∧ si2o.tags = si2.tags
    ∧ si3o.files = si3.files
    ∧ DirectoryBackedFs.edit_file s j none none = .ok ((), s)
    ∧ (∃ s2, DirectoryBackedFs.edit_file s j (some d2) none = .ok ((), s2)
      ∧ readFile (tagFileName j) s2.dir = readFile (tagFileName j) s.dir)
    ∧ (∃ s3, DirectoryBackedFs.edit_file s j none (some ts2) = .ok ((), s3)
      ∧ readFile (dataFileName j) s3.dir = readFile (dataFileName j) s.dir) := by
  obtain ⟨sd, sdir, sc⟩ := s
  cases hok
  refine ⟨?_, imfs_edit_data_only_tags si2 si2o i2 d h2,
    imfs_edit_tags_only_files si3 si3o i3 ts h3, rfl, ⟨_, rfl, ?_⟩, ⟨_, rfl, ?_⟩⟩
  · simp [InMemoryFs.edit_file, h1]
  · exact readFile_writeFile_ne _ _ _ _ (tagFileName_ne_dataFileName j)
  · exact readFile_writeFile_ne _ _ _ _ (Ne.symm (tagFileName_ne_dataFileName j))

/-- Witness for C5 as amended, at concrete states: an empty in-memory store
queried at 256, a two-file store edited data-only at 256, a one-file store
edited tags-only at 256, and a durable backend over an empty directory. -/
theorem claim5_edit_contract_witness :
    InMemoryFs.edit_file ⟨[], []⟩ 256 none none = .err .fileNotFound
    ∧ (⟨[[1], [9]], [(256, []), (257, [])]⟩ : ImfsState).tags
        = (⟨[[1], [2]], [(256, []), (257, [])]⟩ : ImfsState).tags
    ∧ (⟨[[1]], [(256, [⟨.default, [97]⟩])]⟩ : ImfsState).files
        = (⟨[[1]], [(256, [])]⟩ : ImfsState).files
    ∧ DirectoryBackedFs.edit_file ⟨true, [], 256⟩ 256 none none
        = .ok ((), ⟨true, [], 256⟩)
    ∧ (∃ s2, DirectoryBackedFs.edit_file ⟨true, [], 256⟩ 256 (some [7]) none
        = .ok ((), s2)
      ∧ readFile (tagFileName 256) s2.dir
        = readFile (tagFileName 256) (⟨true, [], 256⟩ : DfsState).dir)
    ∧ (∃ s3, DirectoryBackedFs.edit_file ⟨true, [], 256⟩ 256 none
          (some [⟨.default, [97]⟩])
        = .ok ((), s3)
      ∧ readFile (dataFileName 256) s3.dir
        = readFile (dataFileName 256) (⟨true, [], 256⟩ : DfsState).dir) :=
  claim5_edit_contract ⟨[], []⟩ ⟨[[1], [2]], [(256, []), (257, [])]⟩
    ⟨[[1]], [(256, [])]⟩ ⟨[[1], [9]], [(256, []), (257, [])]⟩
    ⟨[[1]], [(256, [⟨.default, [97]⟩])]⟩ 256 256 256 none none [9]
    [⟨.default, [97]⟩] ⟨true, [], 256⟩ 256 [7] [⟨.default, [97]⟩]
    (by decide) (by decide) (by decide) (by decide)

/-- C6: the durable backend's `remove_file` succeeds for every id over a valid
directory, including ids with no artifacts; the in-memory backend's
`remove_file` fails with `FileNotFound` for every non-live id, including an id
just removed successfully. -/
theorem claim6_removal_policy (s : DfsState) (id : Nat) (si sj sj2 : ImfsState)
    (i r : Nat)
    (hok : s.dirOk = true)
    (h1 : mapGet i si.tags = none)
    (hnd : (sj.tags.map Prod.fst).Nodup)
    (hrm : InMemoryFs.remove_file sj r = .ok ((), sj2)) :
    (∃ s2, DirectoryBackedFs.remove_file s id = .ok ((), s2))
    ∧ InMemoryFs.remove_file si i = .err .fileNotFound
    ∧ InMemoryFs.remove_file sj2 r = .err .fileNotFound := by
  obtain ⟨sd, sdir, sc⟩ := s
  cases hok
  refine ⟨⟨_, rfl⟩, ?_, ?_⟩
  · simp [InMemoryFs.remove_file, h1]
  · simp [InMemoryFs.remove_file, imfs_remove_ok_tags sj sj2 r hrm,
      mapGet_mapRemove_self r sj.tags hnd]

/-- Witness for C6 at concrete states: a durable backend over an empty
directory removing the artifact-less id 999, an empty in-memory store, and a
two-file in-memory store from which id 256 was removed once. -/
theorem claim6_removal_policy_witness :
    (∃ s2, DirectoryBackedFs.remove_file ⟨true, [], 256⟩ 999 = .ok ((), s2))
    ∧ InMemoryFs.remove_file ⟨[], []⟩ 256 = .err .fileNotFound
    ∧ InMemoryFs.remove_file ⟨[[5], []], [(257, [])]⟩ 256 = .err .fileNotFound :=
  claim6_removal_policy ⟨true, [], 256⟩ 999 ⟨[], []⟩
    ⟨[[5], [6]], [(256, []), (257, [])]⟩ ⟨[[5], []], [(257, [])]⟩ 256 256
    (by decide) (by decide) (by decide) (by decide)

/-- C7: opening the durable backend on a directory whose `tbf.dat` holds the
8-byte little-endian value 300 makes the next `add_file` return id 300;
opening on a directory with no `tbf.dat` makes the next `add_file` return id
256; and every successful `add_file` rewrites `tbf.dat` with the incremented
counter. -/
theorem claim7_counter_persistence (dir dir2 : Dir) (s s2 : DfsState) (i : Nat)
    (data d2 d3 : List Nat) (tags t2 t3 : List Tag)
    (h300 : readFile tbfDat dir = some (le64 300))
    (hnone : readFile tbfDat dir2 = none)
    (hok : s.dirOk = true)
    (hadd : DirectoryBackedFs.add_file s data tags = .ok (i, s2)) :
    (∃ st, DirectoryBackedFs.new dir = .ok st
      ∧ ∃ st2, DirectoryBackedFs.add_file st d2 t2 = .ok (300, st2))
    ∧ (∃ st, DirectoryBackedFs.new dir2 = .ok st
      ∧ ∃ st2, DirectoryBackedFs.add_file st d3 t3 = .ok (256, st2))
    ∧ readFile tbfDat s2.dir
        = some (le64 ((s.cur_id + 1) % 18446744073709551616)) := by
  have hdec : SavedState.from_path dir = .ok 300 := by
    simp only [SavedState.from_path, h300]
    norm_num [le64, leDecode]
  have hdec2 : SavedState.from_path dir2 = .ok 256 := by
    simp only [SavedState.from_path, hnone]
  refine ⟨⟨⟨true, dir, 300⟩, ?_, ⟨_, rfl⟩⟩, ⟨⟨true, dir2, 256⟩, ?_, ⟨_, rfl⟩⟩, ?_⟩
  · simp [DirectoryBackedFs.new, hdec, RustResult.map]
  · simp [DirectoryBackedFs.new, hdec2, RustResult.map]
  · unfold DirectoryBackedFs.add_file assertDir at hadd
    simp only [hok, if_true, RustResult.ok.injEq, Prod.mk.injEq] at hadd
    rw [← hadd.2]
    exact readFile_writeFile_self _ _ _

/-- Witness for C7 at concrete directories: one holding `tbf.dat` with value
300, one empty, and a backend state with counter 256 over an empty
directory. -/
theorem claim7_counter_persistence_witness :
    (∃ st, DirectoryBackedFs.new [(tbfDat, le64 300)] = .ok st
      ∧ ∃ st2, DirectoryBackedFs.add_file st [1] [] = .ok (300, st2))
    ∧ (∃ st, DirectoryBackedFs.new [] = .ok st
      ∧ ∃ st2, DirectoryBackedFs.add_file st [2] [] = .ok (256, st2))
    ∧ readFile tbfDat
        (⟨true, [(dataFileName 256, [9]), (tagFileName 256, []),
          (tbfDat, le64 257)], 257⟩ : DfsState).dir
        = some (le64 ((256 + 1) % 18446744073709551616)) :=
  claim7_counter_persistence [(tbfDat, le64 300)] [] ⟨true, [], 256⟩
    ⟨true, [(dataFileName 256, [9]), (tagFileName 256, []),
      (tbfDat, le64 257)], 257⟩ 256 [9] [1] [2] [] [] []
    (by decide) (by decide) (by decide) (by decide)

/-- C8 counterexample: the claim fails when the persisted 64-bit counter is at
its maximum.  Opening the durable backend on a directory whose `tbf.dat` holds
`u64::MAX` and adding two files sequentially returns id `2^64 - 1` and then,
after the wrapping increment, id 0, which is smaller. -/
theorem claim8_counterexample :
    ((DirectoryBackedFs.new [(tbfDat, le64 18446744073709551615)]).bind (fun s =>
      (DirectoryBackedFs.add_file s [] []).bind (fun p1 =>
      (DirectoryBackedFs.add_file p1.2 [] []).map (fun p2 => (p1.1, p2.1)))))
        = .ok (18446744073709551615, 0)
    ∧ ¬((18446744073709551615 : Nat) < 0) := by
  refine ⟨by decide, by decide⟩

/-- C8 as amended: two successive successful `add_file` calls return strictly
increasing ids in both backends — unconditionally in the in-memory backend,
and in the durable backend provided the 64-bit counter does not wrap (its
value is below `2^64 - 1`, which holds unless a crafted counter file was
loaded); moreover no two live files share an id: in the in-memory backend a
freshly allocated id is not a key of the tag map (whose keys are distinct),
and in the durable backend distinct `u64` ids occupy distinct artifact
names. -/
theorem claim8_monotonic_ids (s : DfsState) (si : ImfsState)
    (data data2 idata idata2 : List Nat) (tags tags2 itags itags2 : List Tag)
    (hok : s.dirOk = true)
    (hnw : s.cur_id + 1 < 18446744073709551616)
    (hb : ∀ kv ∈ si.tags, kv.1 < si.files.length + 256)
    (hsorted : si.tags.Pairwise (fun a b => a.1 < b.1)) :
    (((DirectoryBackedFs.add_file s data tags).bind (fun p1 =>
        (DirectoryBackedFs.add_file p1.2 data2 tags2).map (fun p2 => (p1.1, p2.1))))
      = .ok (s.cur_id, s.cur_id + 1)
      ∧ s.cur_id < s.cur_id + 1)
    ∧ (((InMemoryFs.add_file si idata itags).bind (fun p1 =>
        (InMemoryFs.add_file p1.2 idata2 itags2).map (fun p2 => (p1.1, p2.1))))
      = .ok (si.files.length + 256, si.files.length + 257)
      ∧ si.files.length + 256 < si.files.length + 257)
    ∧ mapGet (si.files.length + 256) si.tags = none
    ∧ (∀ kv ∈ mapInsert (si.files.length + 256) (collectSet itags) si.tags,
        kv.1 < (si.files.length + 1) + 256)
    ∧ (si.tags.map Prod.fst).Nodup
    ∧ (∀ a b, a < 18446744073709551616 → b < 18446744073709551616 →
        dataFileName a = dataFileName b → a = b) := by
  have hmod : (s.cur_id + 1) % 18446744073709551616 = s.cur_id + 1 :=
    Nat.mod_eq_of_lt hnw
  refine ⟨⟨?_, by omega⟩, ⟨?_, by omega⟩, ?_, ?_, ?_, dataFileName_inj⟩
  · simp [DirectoryBackedFs.add_file, assertDir, hok, RustResult.bind,
      RustResult.map, hmod]
  · simp only [InMemoryFs.add_file, RustResult.bind, RustResult.map,
      List.length_append, List.length_cons, List.length_nil]
  · exact mapGet_none_of_forall_lt _ _ hb
  · intro kv hkv
    rcases mem_keys_mapInsert kv.1 _ _ _ (List.mem_map_of_mem Prod.fst hkv) with hx | hx
    · omega
    · rcases List.mem_map.mp hx with ⟨kv2, hkv2, hfst⟩
      have := hb kv2 hkv2
      omega
  · have : (si.tags.map Prod.fst).Pairwise (fun a b => a < b) :=
      List.pairwise_map.mpr hsorted
    exact this.imp Nat.ne_of_lt

/-- Witness for C8 as amended, at a durable backend over an empty directory
with counter 256 and an empty in-memory store. -/
theorem claim8_monotonic_ids_witness :
    (((DirectoryBackedFs.add_file ⟨true, [], 256⟩ [1] []).bind (fun p1 =>
        (DirectoryBackedFs.add_file p1.2 [2] []).map (fun p2 => (p1.1, p2.1))))
      = .ok (256, 256 + 1)
      ∧ 256 < 256 + 1)
    ∧ (((InMemoryFs.add_file ⟨[], []⟩ [3] []).bind (fun p1 =>
        (InMemoryFs.add_file p1.2 [4] []).map (fun p2 => (p1.1, p2.1))))
      = .ok (0 + 256, 0 + 257)
      ∧ 0 + 256 < 0 + 257)
    ∧ mapGet (0 + 256) ([] : List (Nat × List Tag)) = none
    ∧ (∀ kv ∈ mapInsert (0 + 256) (collectSet []) ([] : List (Nat × List Tag)),
        kv.1 < (0 + 1) + 256)
    ∧ (([] : List (Nat × List Tag)).map Prod.fst).Nodup
    ∧ (∀ a b, a < 18446744073709551616 → b < 18446744073709551616 →
        dataFileName a = dataFileName b → a = b) :=
  claim8_monotonic_ids ⟨true, [], 256⟩ ⟨[], []⟩ [1] [2] [3] [4] [] [] [] []
    (by decide) (by decide) (by simp) (by simp)

end Tbf
